import Mathlib

set_option maxRecDepth 40000

/-!
Verification model of the `solana-tx-toolkit` repository
(`crates/tx-optimizer/src/{priority_fee.rs, bundle.rs, config.rs}`).

The numeric parts of the code compute with IEEE-754 binary64 (`f64`).
We model finite `f64` values exactly as dyadic numbers `m * 2^e`
(structure `F64` below) and implement the IEEE round-to-nearest,
ties-to-even rounding of an exact rational to 53 significant bits as a
pure function on integers (`rnd53`).  All arithmetic appearing in the
code (`u64 as f64`, `/`, `*`, `f64::round`, `as usize`/`as u64`) is
modelled by a correctly-rounded operation on this representation, so
every concrete evaluation below reproduces the bit-exact `f64` result
of the Rust code (all values involved are in the normal range of
binary64; overflow/NaN cases never arise on the inputs considered, and
values beyond `u64::MAX` are saturated exactly as Rust `as` casts do).
-/

/-- Fuelled floor-log2 helper: `log2F fuel n` equals `⌊log2 n⌋` for `1 ≤ n ≤ fuel`.
It mirrors `Nat.log2` but is structurally recursive so that it reduces in the kernel. -/
def log2F : ℕ → ℕ → ℕ
  | 0, _ => 0
  | fuel + 1, n => if 2 ≤ n then log2F fuel (n / 2) + 1 else 0

/-- Floor of the base-2 logarithm of a positive natural number. -/
def myLog2 (n : ℕ) : ℕ := log2F n n

/-- Floor of the base-2 logarithm of the positive rational `a / d`
(`a, d ≥ 1`): scale `a` up by `2^s` with `s = myLog2 d + 1` so the
quotient is at least 1, take the integer floor-log2, and shift back. -/
def ratLog2Floor (a d : ℕ) : ℤ :=
  let s := myLog2 d + 1
  (myLog2 (a * 2 ^ s / d) : ℤ) - (s : ℤ)

/-- A finite IEEE-754 binary64 value, represented exactly as the dyadic
rational `m * 2^e`.  Values produced by `rnd53` have `|m| ∈ [2^52, 2^53]`
(or `m = 0`), but the operations accept any representation. -/
structure F64 where
  m : ℤ
  e : ℤ
  deriving DecidableEq

/-- Round the exact rational `n / d` to the nearest binary64 value
(round-to-nearest, ties-to-even, 53-bit significand).  `d = 0` (division
by zero, which would give an infinity) never occurs on the modelled code
paths and is mapped to 0. -/
def rnd53 (n : ℤ) (d : ℕ) : F64 :=
  if n = 0 ∨ d = 0 then ⟨0, 0⟩
  else
    let a := n.natAbs
    let e : ℤ := ratLog2Floor a d
    let n2 := a * 2 ^ (52 - e).toNat
    let d2 := d * 2 ^ (e - 52).toNat
    let m0 := n2 / d2
    let r := n2 % d2
    let m : ℕ :=
      if 2 * r < d2 then m0
      else if d2 < 2 * r then m0 + 1
      else if m0 % 2 = 0 then m0 else m0 + 1
    ⟨if n < 0 then -(m : ℤ) else (m : ℤ), e - 52⟩

/-- Round the rational `n / d` with integer denominator to binary64. -/
def rnd53Q (n d : ℤ) : F64 :=
  if d < 0 then rnd53 (-n) (-d).toNat else rnd53 n d.toNat

/-- Conversion `u64 as f64` / `usize as f64` (round-to-nearest, ties-to-even). -/
def natToF64 (n : ℕ) : F64 := rnd53 (n : ℤ) 1

/-- IEEE binary64 multiplication: round the exact product.  Rounding a
dyadic is scale-invariant in the exponent, so it suffices to round the
integer product of the significands and shift the exponent. -/
def f64mul (x y : F64) : F64 :=
  let z := rnd53 (x.m * y.m) 1
  ⟨z.m, z.e + x.e + y.e⟩

/-- IEEE binary64 division: round the exact quotient. -/
def f64div (x y : F64) : F64 :=
  if 0 ≤ x.e - y.e then rnd53Q (x.m * 2 ^ (x.e - y.e).toNat) y.m
  else rnd53Q x.m (y.m * 2 ^ (y.e - x.e).toNat)

/-- Rust `f64::round`: round to the nearest integer, ties away from zero.
An `F64` with nonnegative exponent is already an integer. -/
def f64roundHalfAway (x : F64) : F64 :=
  if 0 ≤ x.e then x
  else
    let d := 2 ^ (-x.e).toNat
    let a := x.m.natAbs
    let q := a / d
    let n := if d ≤ 2 * (a % d) then q + 1 else q
    ⟨if x.m < 0 then -(n : ℤ) else (n : ℤ), 0⟩

/-- Rust `f64 as u64` / `f64 as usize` (64-bit targets): truncate toward
zero and saturate to `[0, 2^64 - 1]`. -/
def f64toU64sat (x : F64) : ℕ :=
  if x.m < 0 then 0
  else if 0 ≤ x.e then min (x.m.natAbs * 2 ^ x.e.toNat) (2 ^ 64 - 1)
  else min (x.m.natAbs / 2 ^ (-x.e).toNat) (2 ^ 64 - 1)

/-- The binary64 value `1.0`. -/
def f64One : F64 := ⟨1, 0⟩

/-- Model of `PriorityFeeEstimator::percentile` (priority_fee.rs:157-163):
`if sorted_fees.is_empty() { return 0 }`,
`index = (pct as f64 / 100.0 * (len - 1) as f64).round() as usize`,
`sorted_fees[index.min(len - 1)]`. -/
def percentile (sorted_fees : List ℕ) (pct : ℕ) : ℕ :=
  if sorted_fees.isEmpty then 0
  else
    let n := sorted_fees.length
    let idx := f64toU64sat (f64roundHalfAway
      (f64mul (f64div (natToF64 pct) (natToF64 100)) (natToF64 (n - 1))))
    sorted_fees.getD (min idx (n - 1)) 0

/-- Fee strategy presets (priority_fee.rs:10-19). -/
inductive FeeStrategy
  | Economy
  | Standard
  | Fast
  | Turbo
  deriving DecidableEq

/-- Target percentile of a strategy (priority_fee.rs:23-30). -/
def FeeStrategy.percentile : FeeStrategy → ℕ
  | .Economy => 25
  | .Standard => 50
  | .Fast => 75
  | .Turbo => 90

/-- Fee percentile breakdown (priority_fee.rs:59-65). -/
structure FeePercentiles where
  p25 : ℕ
  p50 : ℕ
  p75 : ℕ
  p90 : ℕ
  max : ℕ
  deriving DecidableEq

/-- Result of a priority fee estimation (priority_fee.rs:46-55). -/
structure FeeEstimate where
  recommended_fee : ℕ
  strategy : FeeStrategy
  slots_sampled : ℕ
  percentiles : FeePercentiles
  deriving DecidableEq

/-- Default priority fee in microlamports per compute unit (config.rs:26). -/
def DEFAULT_PRIORITY_FEE_MICROLAMPORTS : ℕ := 10000

/-- Model of `PriorityFeeEstimator::estimate` (priority_fee.rs:175-220),
as a function of the already-fetched (zero-filtered) fee samples.
`fees.sort_unstable()` is modelled by an ascending sort of the sample
list; `*fees.last().unwrap_or(&0)` by `getLastD 0`. -/
def estimateFromSamples (fees : List ℕ) (strategy : FeeStrategy) : FeeEstimate :=
  if fees.isEmpty then
    ⟨DEFAULT_PRIORITY_FEE_MICROLAMPORTS, strategy, 0, ⟨0, 0, 0, 0, 0⟩⟩
  else
    let sorted := List.insertionSort (· ≤ ·) fees
    let percentiles : FeePercentiles :=
      ⟨percentile sorted 25, percentile sorted 50, percentile sorted 75,
        percentile sorted 90, sorted.getLastD 0⟩
    ⟨percentile sorted strategy.percentile, strategy, sorted.length, percentiles⟩

/-- Model of `PriorityFeeEstimator::estimate_with_buffer`
(priority_fee.rs:224-238): compute the estimate, then replace
`recommended_fee` by `(recommended_fee as f64 * buffer_multiplier) as u64`.
The multiplier is an arbitrary finite `f64`, given as a dyadic value. -/
def estimateWithBufferFromSamples (fees : List ℕ) (strategy : FeeStrategy)
    (buffer_multiplier : F64) : FeeEstimate :=
  let e := estimateFromSamples fees strategy
  ⟨f64toU64sat (f64mul (natToF64 e.recommended_fee) buffer_multiplier),
    e.strategy, e.slots_sampled, e.percentiles⟩

/-!
Bundle model (bundle.rs).  Transactions are opaque byte blobs; a byte is
a natural number < 256.  The base-58 codec used by `build` is the
standard Bitcoin-alphabet big-integer encoding of the `bs58` crate:
one `'1'` per leading zero byte, then the big-endian base-58 digits of
the remaining bytes read as a big-endian integer.
-/

/-- Fuelled little-endian base-`b` digit expansion; `digitsF b fuel n`
equals `Nat.digits b n` whenever `n ≤ fuel` (and `2 ≤ b`).  Structural
recursion on the fuel makes it reduce in the kernel. -/
def digitsF (b : ℕ) : ℕ → ℕ → List ℕ
  | 0, _ => []
  | fuel + 1, n => if n = 0 then [] else n % b :: digitsF b fuel (n / b)

/-- Little-endian base-`b` digits of `n` (minimal, no trailing zeros). -/
def natDigits (b n : ℕ) : List ℕ := digitsF b n n

/-- The Bitcoin base-58 alphabet used by the `bs58` crate. -/
def base58Alphabet : List Char :=
  "123456789ABCDEFGHJKLMNPQRSTUVWXYZabcdefghijkmnopqrstuvwxyz".data

/-- Digit-to-character map of the base-58 encoding. -/
def encChar (d : ℕ) : Char := base58Alphabet.getD d '1'

/-- Character-to-digit map of the base-58 decoding (`none` on a
character outside the alphabet). -/
def decChar (c : Char) : Option ℕ := base58Alphabet.indexOf? c

/-- A byte list read as a big-endian integer. -/
def bytesToNat (bs : List ℕ) : ℕ := Nat.ofDigits 256 bs.reverse

/-- `bs58::encode(tx_bytes).into_string()`: one `'1'` per leading zero
byte, then the big-endian base-58 digits of the value of the bytes. -/
def bs58encode (bs : List ℕ) : String :=
  let zcount := (bs.takeWhile (· == 0)).length
  let digitsBE := (natDigits 58 (bytesToNat bs)).reverse
  ⟨List.replicate zcount '1' ++ digitsBE.map encChar⟩

/-- Decode every character through the alphabet, failing on the first
character outside it (the all-or-nothing behaviour of `bs58::decode`). -/
def decodeChars : List Char → Option (List ℕ)
  | [] => some []
  | c :: cs =>
    match decChar c with
    | none => none
    | some v =>
      match decodeChars cs with
      | none => none
      | some vs => some (v :: vs)

/-- Standard base-58 decoding: fails on a character outside the
alphabet; otherwise one leading zero byte per leading `'1'`, then the
minimal big-endian bytes of the base-58 value of the text. -/
def bs58decode (s : String) : Option (List ℕ) :=
  match decodeChars s.data with
  | none => none
  | some vals =>
    let zcount := (s.data.takeWhile (· == '1')).length
    let n := Nat.ofDigits 58 vals.reverse
    some (List.replicate zcount 0 ++ (natDigits 256 n).reverse)

/-- Model of `JitoBundleBuilder::build` (bundle.rs:129-149), reduced to
the content the claims are about: the `params` array of base-58-encoded
transactions (the enclosing constant JSON-RPC envelope is omitted).
Fails on an empty bundle with the source's error message. -/
def buildPayload (txs : List (List ℕ)) : Except String (List String) :=
  if txs.isEmpty then .error "Cannot build an empty bundle"
  else .ok (txs.map bs58encode)

/-- Bundle submission status (bundle.rs:22-34). -/
inductive BundleStatus
  | Accepted (bundle_id : String)
  | Landed (bundle_id : String) (slot : ℕ)
  | Rejected (reason : String)
  | Expired (bundle_id : String)
  deriving DecidableEq

/-- Result from a bundle submission attempt (bundle.rs:38-42).
`elapsed_ms` is the model clock: network round-trips are instantaneous
and only the explicit `sleep` calls advance time, so the elapsed time
of `submit` is the sum of the backoff sleeps it performed, and the
elapsed time of the confirmation loop is 500 ms per poll iteration. -/
structure BundleSubmissionResult where
  status : BundleStatus
  attempts : ℕ
  elapsed_ms : ℕ
  deriving DecidableEq

/-- What `submit` observes from the relay on one attempt
(bundle.rs:167-218): the `send()` future fails (`sendErr`), the body
fails to parse as JSON (`parseErr`, the `response.json().await.context(..)?`
path), or a parsed body.  In a parsed body, `success` is
`status_code.is_success()`; `result` is the optional `"result"` field
(`some none` models a present non-string value, turned into the id
`"unknown"` by `as_str().unwrap_or`); `error` is the optional
`"error"` object, carrying its optional `"message"` string. -/
inductive SubmitResponse
  | sendErr
  | parseErr
  | body (success : Bool) (result : Option (Option String)) (error : Option (Option String))
  deriving DecidableEq

/-- Substring test, as Rust `str::contains` with a literal pattern. -/
def infixSearch (sub : List Char) : List Char → Bool
  | [] => sub.isEmpty
  | c :: rest => sub.isPrefixOf (c :: rest) || infixSearch sub rest

/-- Rust `haystack.contains(needle)`. -/
def strContainsSub (hay needle : String) : Bool := infixSearch needle.data hay.data

/-- The non-retryable relay error messages (bundle.rs:202-204):
`reason.contains("already processed") || reason.contains("blockhash not found")`. -/
def isTerminalReason (reason : String) : Bool :=
  strContainsSub reason "already processed" || strContainsSub reason "blockhash not found"

/-- Backoff before the next attempt (bundle.rs:222):
`100 * 2u64.pow((attempt - 1) as u32)` in wrapping (release-mode) `u64`
arithmetic. -/
def backoffMs (attempt : ℕ) : ℕ := 100 * 2 ^ (attempt - 1) % 2 ^ 64

/-- One response is retryable when it triggers neither the `Accepted`
return, nor the terminal `Rejected` return, nor the body-parse error. -/
def isRetryable : SubmitResponse → Bool
  | .sendErr => true
  | .parseErr => false
  | .body success result error =>
    (!(success && result.isSome)) &&
      (match error with
       | some m => !(isTerminalReason (m.getD "Unknown error"))
       | none => true)

/-- The retry loop of `JitoBundleBuilder::submit` (bundle.rs:161-234).
`relay k` is what attempt `k` observes; the fuel counts the remaining
attempts (`attempt` runs from 1 to `max_retries`, and exhausting the
fuel is the loop falling through to the final `Rejected` return).
Returns the submission result together with the list of backoff sleeps
performed (in ms), in order. -/
def submitLoop (relay : ℕ → SubmitResponse) (maxRetries : ℕ) :
    ℕ → ℕ → List ℕ → Except String (BundleSubmissionResult × List ℕ)
  | _, 0, sleeps =>
    .ok (⟨.Rejected "Max retries exceeded", maxRetries, sleeps.sum⟩, sleeps)
  | attempt, rem + 1, sleeps =>
    match relay attempt with
    | .sendErr =>
      submitLoop relay maxRetries (attempt + 1) rem
        (sleeps ++ if attempt < maxRetries then [backoffMs attempt] else [])
    | .parseErr => .error "Failed to parse bundle submission response"
    | .body success result error =>
      match (if success then result else none) with
      | some rid => .ok (⟨.Accepted (rid.getD "unknown"), attempt, sleeps.sum⟩, sleeps)
      | none =>
        match error with
        | some m =>
          let reason := m.getD "Unknown error"
          if isTerminalReason reason then
            .ok (⟨.Rejected reason, attempt, sleeps.sum⟩, sleeps)
          else
            submitLoop relay maxRetries (attempt + 1) rem
              (sleeps ++ if attempt < maxRetries then [backoffMs attempt] else [])
        | none =>
          submitLoop relay maxRetries (attempt + 1) rem
            (sleeps ++ if attempt < maxRetries then [backoffMs attempt] else [])

/-- Model of `JitoBundleBuilder::submit` (bundle.rs:154-235), given the
relay's behaviour per attempt.  The `Err` case is the propagated
body-parse failure; build errors are handled in `submitFull`. -/
def submit (relay : ℕ → SubmitResponse) (maxRetries : ℕ) :
    Except String (BundleSubmissionResult × List ℕ) :=
  submitLoop relay maxRetries 1 maxRetries []

/-- Model of `submit` including the initial `self.build()?` step. -/
def submitFull (txs : List (List ℕ)) (relay : ℕ → SubmitResponse) (maxRetries : ℕ) :
    Except String (BundleSubmissionResult × List ℕ) :=
  match buildPayload txs with
  | .error e => .error e
  | .ok _ => submit relay maxRetries

/-- One record of a `getBundleStatuses` response (bundle.rs:266-277).
`confirmation` is the optional `confirmation_status` field with its
optional string value (`status.get(..).and_then(as_str)`); `slot` is
`status.get("slot").and_then(as_u64)`, so `none` models an absent slot
field as well as a present non-`u64` value. -/
structure BundleRecord where
  confirmation : Option (Option String)
  slot : Option ℕ
  deriving DecidableEq

/-- What one status query observes (bundle.rs:254-261): a transport or
body-parse failure (the two `?`s, making `check_status` return `Err`),
or a parsed body.  `result = none` models a missing `"result"` field;
`some none` a missing/non-array `result.value`; `some (some rs)` the
array of status records. -/
inductive StatusResponse
  | err
  | body (result : Option (Option (List BundleRecord)))
  deriving DecidableEq

/-- The confirmation string of a record:
`status.get("confirmation_status").and_then(|s| s.as_str()).unwrap_or("unknown")`. -/
def confStr (rec : BundleRecord) : String := (rec.confirmation.bind id).getD "unknown"

/-- Model of `JitoBundleBuilder::check_status` (bundle.rs:243-295) as a
function of the observed response.  `Err` models the propagated
transport/parse failure. -/
def checkStatus (bundle_id : String) : StatusResponse → Except Unit BundleStatus
  | .err => .error ()
  | .body none => .ok (.Expired bundle_id)
  | .body (some none) => .ok (.Expired bundle_id)
  | .body (some (some [])) => .ok (.Expired bundle_id)
  | .body (some (some (rec :: _))) =>
    if confStr rec = "confirmed" ∨ confStr rec = "finalized" then
      .ok (.Landed bundle_id (rec.slot.getD 0))
    else .ok (.Accepted bundle_id)

/-- Whether a `check_status` outcome ends the confirmation loop. -/
def isTerminalPoll : Except Unit BundleStatus → Bool
  | .ok (.Landed _ _) => true
  | .ok (.Expired _) => true
  | _ => false

/-- The polling loop of `submit_and_confirm` (bundle.rs:313-353):
`while start.elapsed() < timeout { sleep(500ms); check_status; .. }`.
In the model clock, `i` polls have happened after `500 * i` ms.
`polls k` is what the `k`-th status query observes.  The fuel is an
upper bound on the remaining iterations; `confirmPoll` supplies
`timeoutMs`, which always suffices, and the fuel-exhausted return
coincides with the deadline return.  Returns the final status and the
elapsed ms at return. -/
def confirmLoop (bundle_id : String) (polls : ℕ → StatusResponse) (timeoutMs : ℕ) :
    ℕ → ℕ → BundleStatus × ℕ
  | i, 0 => (.Expired bundle_id, 500 * i)
  | i, fuel + 1 =>
    if 500 * i < timeoutMs then
      match checkStatus bundle_id (polls (i + 1)) with
      | .ok (.Landed _ slot) => (.Landed bundle_id slot, 500 * (i + 1))
      | .ok (.Expired _) => (.Expired bundle_id, 500 * (i + 1))
      | _ => confirmLoop bundle_id polls timeoutMs (i + 1) fuel
    else (.Expired bundle_id, 500 * i)

/-- The whole confirmation phase, from poll 1 with a fresh clock. -/
def confirmPoll (bundle_id : String) (polls : ℕ → StatusResponse) (timeoutMs : ℕ) :
    BundleStatus × ℕ :=
  confirmLoop bundle_id polls timeoutMs 0 timeoutMs

/-- Model of `JitoBundleBuilder::submit_and_confirm` (bundle.rs:302-354):
submit, return non-`Accepted` results unchanged, otherwise poll.  Note
the source restarts its clock (`let start = Instant::now()`) after
`submit` returns, so the returned `elapsed_ms` covers the polling phase
only. -/
def submitAndConfirm (relay : ℕ → SubmitResponse) (maxRetries : ℕ)
    (polls : ℕ → StatusResponse) (timeoutMs : ℕ) : Except String BundleSubmissionResult :=
  match submit relay maxRetries with
  | .error e => .error e
  | .ok (r, _) =>
    match r.status with
    | .Accepted bundle_id =>
      let p := confirmPoll bundle_id polls timeoutMs
      .ok ⟨p.1, r.attempts, p.2⟩
    | _ => .ok r

/-! Helper lemmas about the submission loop. -/

theorem submitLoop_step (relay : ℕ → SubmitResponse) (maxRetries attempt rem : ℕ)
    (sleeps : List ℕ) (h : isRetryable (relay attempt) = true) :
    submitLoop relay maxRetries attempt (rem + 1) sleeps =
      submitLoop relay maxRetries (attempt + 1) rem
        (sleeps ++ if attempt < maxRetries then [backoffMs attempt] else []) := by
  cases hr : relay attempt with
  | sendErr => simp [submitLoop, hr]
  | parseErr => rw [hr] at h; simp [isRetryable] at h
  | body success result error =>
    rw [hr] at h
    simp only [isRetryable, Bool.and_eq_true, Bool.not_eq_true'] at h
    obtain ⟨h1, h2⟩ := h
    have hres : (if success then result else none) = none := by
      cases success <;> cases result <;> simp_all
    cases error with
    | none => simp [submitLoop, hr, hres]
    | some m =>
      have ht : isTerminalReason (m.getD "Unknown error") = false := by simpa using h2
      simp [submitLoop, hr, hres, ht]

theorem submitLoop_skip (relay : ℕ → SubmitResponse) (maxRetries steps : ℕ) :
    ∀ (attempt rem : ℕ) (sleeps : List ℕ),
      attempt + rem = maxRetries + 1 →
      attempt + steps ≤ maxRetries →
      (∀ k, attempt ≤ k → k < attempt + steps → isRetryable (relay k) = true) →
      submitLoop relay maxRetries attempt rem sleeps =
        submitLoop relay maxRetries (attempt + steps) (rem - steps)
          (sleeps ++ (List.range' attempt steps).map backoffMs) := by
  induction steps with
  | zero => intro attempt rem sleeps _ _ _; simp
  | succ s ih =>
    intro attempt rem sleeps hinv hle hretry
    obtain ⟨rem', rfl⟩ : ∃ rem', rem = rem' + 1 := by
      cases rem with
      | zero => omega
      | succ r => exact ⟨r, rfl⟩
    rw [submitLoop_step relay maxRetries attempt rem' sleeps
      (hretry attempt le_rfl (by omega))]
    rw [if_pos (show attempt < maxRetries by omega)]
    rw [ih (attempt + 1) rem' (sleeps ++ [backoffMs attempt]) (by omega) (by omega)
      (fun k hk1 hk2 => hretry k (by omega) (by omega))]
    have he1 : attempt + 1 + s = attempt + (s + 1) := by omega
    have he2 : rem' - s = rem' + 1 - (s + 1) := by omega
    rw [he1, he2, List.range'_succ, List.map_cons, ← List.append_cons]

theorem submitLoop_no_parseErr (relay : ℕ → SubmitResponse) (maxRetries : ℕ) :
    ∀ (rem attempt : ℕ) (sleeps : List ℕ),
      (∀ k, relay k ≠ .parseErr) →
      ∃ r, submitLoop relay maxRetries attempt rem sleeps = .ok r := by
  intro rem
  induction rem with
  | zero => intro attempt sleeps _; exact ⟨_, rfl⟩
  | succ r ih =>
    intro attempt sleeps hnp
    cases hr : relay attempt with
    | sendErr => simpa [submitLoop, hr] using ih (attempt + 1) _ hnp
    | parseErr => exact absurd hr (hnp attempt)
    | body success result error =>
      cases hres : (if success then result else none) with
      | some rid =>
        exact ⟨(⟨.Accepted (rid.getD "unknown"), attempt, sleeps.sum⟩, sleeps),
          by simp [submitLoop, hr, hres]⟩
      | none =>
        cases error with
        | some m =>
          by_cases ht : isTerminalReason (m.getD "Unknown error")
          · exact ⟨(⟨.Rejected (m.getD "Unknown error"), attempt, sleeps.sum⟩, sleeps),
              by simp [submitLoop, hr, hres, ht]⟩
          · simpa [submitLoop, hr, hres, ht] using ih (attempt + 1) _ hnp
        | none => simpa [submitLoop, hr, hres] using ih (attempt + 1) _ hnp

/-- C2: on the first attempt whose response carries a terminal error
message, the loop returns `Rejected` with that attempt count;
all earlier attempts were retryable. -/
theorem submit_terminal_rejects_immediately
    (relay : ℕ → SubmitResponse) (maxRetries a : ℕ) (s : Bool) (m : Option String)
    (ha1 : 1 ≤ a) (ha2 : a ≤ maxRetries)
    (hprev : ∀ k, 1 ≤ k → k < a → isRetryable (relay k) = true)
    (hcur : relay a = .body s none (some m))
    (hterm : isTerminalReason (m.getD "Unknown error") = true) :
    submit relay maxRetries =
      .ok (⟨.Rejected (m.getD "Unknown error"), a,
            (((List.range' 1 (a - 1)).map backoffMs)).sum⟩,
           (List.range' 1 (a - 1)).map backoffMs) := by
  unfold submit
  rw [submitLoop_skip relay maxRetries (a - 1) 1 maxRetries [] (by omega) (by omega)
    (fun k hk1 hk2 => hprev k hk1 (by omega))]
  have h1a : 1 + (a - 1) = a := by omega
  obtain ⟨rem', hrem⟩ : ∃ rem', maxRetries - (a - 1) = rem' + 1 := ⟨maxRetries - a, by omega⟩
  rw [h1a, hrem]
  have hres : (if s then (none : Option (Option String)) else none) = none := by
    cases s <;> rfl
  simp [submitLoop, hcur, hres, hterm]

/-- C2 witness: a relay that answers every call with a terminal error
message makes `submit` return `Rejected` after exactly 1 attempt, with
no backoff sleeps. -/
theorem submit_terminal_rejects_immediately_witness :
    submit (fun _ => .body true none (some (some "tx already processed"))) 3 =
      .ok (⟨.Rejected "tx already processed", 1, 0⟩, []) :=
  submit_terminal_rejects_immediately
    (fun _ => .body true none (some (some "tx already processed"))) 3 1 true
    (some "tx already processed") le_rfl (by omega)
    (fun k hk1 hk2 => absurd hk1 (by omega)) rfl (by decide)

/-- C3: when every attempt is retryable, `submit` exhausts all
`max_retries` attempts and returns `Rejected` with the source's reason
string, reporting `attempts = max_retries`; the backoff sleeps
performed are exactly `backoffMs 1, .., backoffMs (max_retries - 1)` —
one between consecutive attempts, none after the last. -/
theorem submit_exhausts_max_retries (relay : ℕ → SubmitResponse) (maxRetries : ℕ)
    (hretry : ∀ k, 1 ≤ k → k ≤ maxRetries → isRetryable (relay k) = true) :
    submit relay maxRetries =
      .ok (⟨.Rejected "Max retries exceeded", maxRetries,
            ((List.range' 1 (maxRetries - 1)).map backoffMs).sum⟩,
           (List.range' 1 (maxRetries - 1)).map backoffMs) := by
  cases maxRetries with
  | zero => rfl
  | succ M =>
    unfold submit
    rw [submitLoop_skip relay (M + 1) M 1 (M + 1) [] (by omega) (by omega)
      (fun k hk1 hk2 => hretry k hk1 (by omega))]
    have h1 : 1 + M = M + 1 := by omega
    have h2 : M + 1 - M = 1 := by omega
    rw [h1, h2]
    rw [submitLoop_step relay (M + 1) (M + 1) 0 _ (hretry (M + 1) (by omega) le_rfl)]
    rw [if_neg (lt_irrefl (M + 1))]
    simp [submitLoop]

/-- C3 witness: three retryable attempts give `Rejected` with
`attempts = 3` and sleeps 100 ms and 200 ms. -/
theorem submit_exhausts_max_retries_witness :
    submit (fun _ => .sendErr) 3 =
      .ok (⟨.Rejected "Max retries exceeded", 3, 300⟩, [100, 200]) := by
  have h := submit_exhausts_max_retries (fun _ => .sendErr) 3 (fun k _ _ => rfl)
  exact h

/-- C3 counterexample: the reason string produced by the code is
`"Max retries exceeded"` (capital M), not `"max retries exceeded"` as
the claim states; moreover the backoff between attempts 59 and 60 is
`100 * 2^58` reduced modulo `2^64` (wrapping `u64` arithmetic), not the
mathematical `100 * 2^(k-1)`. -/
theorem submit_reason_counterexample :
    submit (fun _ => .sendErr) 1 = .ok (⟨.Rejected "Max retries exceeded", 1, 0⟩, [])
    ∧ "Max retries exceeded" ≠ "max retries exceeded"
    ∧ (submit (fun _ => .sendErr) 60).toOption.map (fun p => p.2.getD 58 0)
        = some 10376293541461622784
    ∧ (10376293541461622784 : ℕ) ≠ 100 * 2 ^ 58 :=
  ⟨rfl, by decide, by decide, by decide⟩

/-- C8 (amended): transport-level send failures are absorbed — when no
attempt hits the body-parse failure, `submit` always returns a final
`BundleSubmissionResult`; but an HTTP-successful response whose body
fails to parse makes `submit` propagate an error to the caller. -/
theorem submit_transport_vs_parse_errors :
    (∀ (relay : ℕ → SubmitResponse) (maxRetries : ℕ),
        (∀ k, relay k ≠ .parseErr) → ∃ r, submit relay maxRetries = .ok r)
    ∧ (∀ (relay : ℕ → SubmitResponse) (maxRetries a : ℕ),
        1 ≤ a → a ≤ maxRetries →
        (∀ k, 1 ≤ k → k < a → isRetryable (relay k) = true) →
        relay a = .parseErr →
        submit relay maxRetries = .error "Failed to parse bundle submission response") := by
  constructor
  · intro relay maxRetries hnp
    exact submitLoop_no_parseErr relay maxRetries maxRetries 1 [] hnp
  · intro relay maxRetries a ha1 ha2 hprev hcur
    unfold submit
    rw [submitLoop_skip relay maxRetries (a - 1) 1 maxRetries [] (by omega) (by omega)
      (fun k hk1 hk2 => hprev k hk1 (by omega))]
    obtain ⟨rem', hrem⟩ : ∃ rem', maxRetries - (a - 1) = rem' + 1 := ⟨maxRetries - a, by omega⟩
    have h1a : 1 + (a - 1) = a := by omega
    rw [h1a, hrem]
    simp [submitLoop, hcur]

/-- C8 witness: with only connection failures, the caller still gets a
final submission result. -/
theorem submit_transport_vs_parse_errors_witness :
    ∃ r, submit (fun _ => .sendErr) 2 = .ok r :=
  submit_transport_vs_parse_errors.1 (fun _ => .sendErr) 2
    (fun _ h => SubmitResponse.noConfusion h)

/-- C8 counterexample: a malformed response body on every attempt makes
`submit` return a raw parse error instead of retrying and returning a
`BundleSubmissionResult`. -/
theorem submit_parse_error_escapes_counterexample :
    submit (fun _ => .parseErr) 3 = .error "Failed to parse bundle submission response" := rfl

/-! Helper lemmas about the confirmation loop. -/

theorem confirmLoop_all_pending (bundle_id : String) (polls : ℕ → StatusResponse)
    (timeoutMs : ℕ) (hp : ∀ i, isTerminalPoll (checkStatus bundle_id (polls i)) = false) :
    ∀ (fuel i : ℕ), (confirmLoop bundle_id polls timeoutMs i fuel).1 = .Expired bundle_id := by
  intro fuel
  induction fuel with
  | zero => intro i; rfl
  | succ f ih =>
    intro i
    by_cases h : 500 * i < timeoutMs
    · cases hc : checkStatus bundle_id (polls (i + 1)) with
      | error u => simpa [confirmLoop, h, hc] using ih (i + 1)
      | ok st =>
        cases st with
        | Accepted b => simpa [confirmLoop, h, hc] using ih (i + 1)
        | Rejected r => simpa [confirmLoop, h, hc] using ih (i + 1)
        | Landed b sl =>
          exfalso
          have := hp (i + 1)
          rw [hc] at this
          simp [isTerminalPoll] at this
        | Expired b =>
          exfalso
          have := hp (i + 1)
          rw [hc] at this
          simp [isTerminalPoll] at this
    · simp [confirmLoop, h]

theorem confirmLoop_elapsed_le (bundle_id : String) (polls : ℕ → StatusResponse)
    (timeoutMs : ℕ) :
    ∀ (fuel i : ℕ), 500 * i ≤ timeoutMs + 500 →
      (confirmLoop bundle_id polls timeoutMs i fuel).2 ≤ timeoutMs + 500 := by
  intro fuel
  induction fuel with
  | zero => intro i hi; simpa [confirmLoop] using hi
  | succ f ih =>
    intro i hi
    by_cases h : 500 * i < timeoutMs
    · cases hc : checkStatus bundle_id (polls (i + 1)) with
      | error u => simpa [confirmLoop, h, hc] using ih (i + 1) (by omega)
      | ok st =>
        cases st with
        | Accepted b => simpa [confirmLoop, h, hc] using ih (i + 1) (by omega)
        | Rejected r => simpa [confirmLoop, h, hc] using ih (i + 1) (by omega)
        | Landed b sl => simp [confirmLoop, h, hc]; omega
        | Expired b => simp [confirmLoop, h, hc]; omega
    · simp [confirmLoop, h]; omega

/-- C4: one status query maps a record with confirmation
`"confirmed"`/`"finalized"` to the terminal `Landed` with the record's
slot; any other marker on a present record to the non-terminal pending
state (the loop continues); a response with no record to the terminal
`Expired`; and if every poll is non-terminal the confirmation loop
returns `Expired` with the bundle id once the deadline elapses. -/
theorem checkStatus_classification :
    (∀ (bundle_id : String) (rec : BundleRecord) (rest : List BundleRecord),
        (confStr rec = "confirmed" ∨ confStr rec = "finalized") →
        checkStatus bundle_id (.body (some (some (rec :: rest)))) =
          .ok (.Landed bundle_id (rec.slot.getD 0)))
    ∧ (∀ (bundle_id : String) (rec : BundleRecord) (rest : List BundleRecord),
        confStr rec ≠ "confirmed" → confStr rec ≠ "finalized" →
        checkStatus bundle_id (.body (some (some (rec :: rest)))) =
          .ok (.Accepted bundle_id)
        ∧ isTerminalPoll (checkStatus bundle_id (.body (some (some (rec :: rest))))) = false)
    ∧ (∀ (bundle_id : String) (r : StatusResponse),
        (r = .body none ∨ r = .body (some none) ∨ r = .body (some (some []))) →
        checkStatus bundle_id r = .ok (.Expired bundle_id))
    ∧ (∀ (bundle_id : String) (polls : ℕ → StatusResponse) (timeoutMs : ℕ),
        (∀ i, isTerminalPoll (checkStatus bundle_id (polls i)) = false) →
        (confirmPoll bundle_id polls timeoutMs).1 = .Expired bundle_id) := by
  refine ⟨?_, ?_, ?_, ?_⟩
  · intro bundle_id rec rest h
    simp [checkStatus, h]
  · intro bundle_id rec rest h1 h2
    constructor
    · simp [checkStatus, h1, h2]
    · simp [checkStatus, h1, h2, isTerminalPoll]
  · intro bundle_id r h
    rcases h with rfl | rfl | rfl <;> rfl
  · intro bundle_id polls timeoutMs hp
    exact confirmLoop_all_pending bundle_id polls timeoutMs hp timeoutMs 0

/-- C4 witness: a relay that always reports a pending marker makes the
confirmation loop time out with `Expired`, and a `"finalized"` record
with slot 42 maps to `Landed` at slot 42. -/
theorem checkStatus_classification_witness :
    (confirmPoll "b" (fun _ => .body (some (some [⟨some (some "processed"), none⟩]))) 1200).1
      = .Expired "b"
    ∧ checkStatus "b" (.body (some (some [⟨some (some "finalized"), some 42⟩])))
      = .ok (.Landed "b" 42) :=
  ⟨checkStatus_classification.2.2.2 "b" _ 1200 (fun _ => rfl),
   checkStatus_classification.1 "b" ⟨some (some "finalized"), some 42⟩ [] (Or.inr rfl)⟩

/-- C10: a record whose confirmation is `"confirmed"` or `"finalized"`
but whose slot is absent or not a `u64` yields `Landed` with the
fabricated slot 0. -/
theorem checkStatus_missing_slot_zero
    (bundle_id : String) (rec : BundleRecord) (rest : List BundleRecord)
    (hconf : confStr rec = "confirmed" ∨ confStr rec = "finalized")
    (hslot : rec.slot = none) :
    checkStatus bundle_id (.body (some (some (rec :: rest)))) =
      .ok (.Landed bundle_id 0) := by
  simp [checkStatus, hconf, hslot]

/-- C10 witness: a `"confirmed"` record with no slot field lands at slot 0. -/
theorem checkStatus_missing_slot_zero_witness :
    checkStatus "b" (.body (some (some [⟨some (some "confirmed"), none⟩])))
      = .ok (.Landed "b" 0) :=
  checkStatus_missing_slot_zero "b" ⟨some (some "confirmed"), none⟩ [] (Or.inl rfl) rfl

/-- C9 (amended): after a successful submission, `submit_and_confirm`
returns the polling outcome with the cumulative `attempts` taken from
the submission phase, but its `elapsed_ms` is measured from the start
of the polling phase only (the source restarts its clock after `submit`
returns); the polling elapsed time respects the deadline up to one poll
interval. -/
theorem submitAndConfirm_elapsed_from_polling
    (relay : ℕ → SubmitResponse) (maxRetries : ℕ) (polls : ℕ → StatusResponse)
    (timeoutMs : ℕ) (r : BundleSubmissionResult) (sl : List ℕ) (bundle_id : String)
    (hsub : submit relay maxRetries = .ok (r, sl))
    (hacc : r.status = .Accepted bundle_id) :
    submitAndConfirm relay maxRetries polls timeoutMs =
      .ok ⟨(confirmPoll bundle_id polls timeoutMs).1, r.attempts,
           (confirmPoll bundle_id polls timeoutMs).2⟩
    ∧ (confirmPoll bundle_id polls timeoutMs).2 ≤ timeoutMs + 500 := by
  constructor
  · simp [submitAndConfirm, hsub, hacc]
  · exact confirmLoop_elapsed_le bundle_id polls timeoutMs timeoutMs 0 (by omega)

/-- C9 witness: a submission accepted on the first attempt followed by a
first-poll `finalized` yields the polling outcome with its elapsed time. -/
theorem submitAndConfirm_elapsed_from_polling_witness :
    submitAndConfirm (fun _ => .body true (some (some "bid")) none) 1
      (fun _ => .body (some (some [⟨some (some "finalized"), some 7⟩]))) 800
      = .ok ⟨.Landed "bid" 7, 1, 500⟩
    ∧ (500 : ℕ) ≤ 800 + 500 := by
  have h := submitAndConfirm_elapsed_from_polling
    (fun _ => .body true (some (some "bid")) none) 1
    (fun _ => .body (some (some [⟨some (some "finalized"), some 7⟩]))) 800
    ⟨.Accepted "bid", 1, 0⟩ [] "bid" rfl rfl
  exact h

/-- C9 counterexample: the model clock shows `submit` spending 100 ms
(one backoff sleep) before acceptance on attempt 2, and one 500 ms poll
until `Landed`; the returned `elapsed_ms` is 500 — the polling time
alone — whereas measuring from the start of the `submit` call, as the
claim states, would give 600. -/
theorem submitAndConfirm_elapsed_counterexample :
    submitAndConfirm (fun k => if k = 1 then .sendErr else .body true (some (some "bid1")) none) 2
      (fun _ => .body (some (some [⟨some (some "finalized"), some 42⟩]))) 2000
      = .ok ⟨.Landed "bid1" 42, 2, 500⟩
    ∧ submit (fun k => if k = 1 then .sendErr else .body true (some (some "bid1")) none) 2
      = .ok (⟨.Accepted "bid1", 2, 100⟩, [100])
    ∧ (500 : ℕ) ≠ 100 + 500 :=
  ⟨rfl, rfl, by decide⟩

/-! Helper lemmas about the binary64 model. -/

theorem log2F_spec : ∀ (fuel n : ℕ), 1 ≤ n → n ≤ fuel →
    2 ^ log2F fuel n ≤ n ∧ n < 2 ^ (log2F fuel n + 1) := by
  intro fuel
  induction fuel with
  | zero => intro n h1 h2; omega
  | succ f ih =>
    intro n h1 h2
    by_cases h : 2 ≤ n
    · have hd1 : 1 ≤ n / 2 := by omega
      have hd2 : n / 2 ≤ f := by omega
      obtain ⟨l1, l2⟩ := ih (n / 2) hd1 hd2
      simp only [log2F, if_pos h]
      have e1 : (2 : ℕ) ^ (log2F f (n / 2) + 1) = 2 * 2 ^ log2F f (n / 2) := by ring
      have e2 : (2 : ℕ) ^ (log2F f (n / 2) + 1 + 1) = 2 * 2 ^ (log2F f (n / 2) + 1) := by ring
      omega
    · simp only [log2F, if_neg h]
      omega

theorem myLog2_spec (n : ℕ) (h : 1 ≤ n) :
    2 ^ myLog2 n ≤ n ∧ n < 2 ^ (myLog2 n + 1) :=
  log2F_spec n n h le_rfl

theorem myLog2_unique {n a : ℕ} (h1 : 2 ^ a ≤ n) (h2 : n < 2 ^ (a + 1)) :
    myLog2 n = a := by
  have hn : 1 ≤ n := le_trans Nat.one_le_two_pow h1
  obtain ⟨l1, l2⟩ := myLog2_spec n hn
  rcases Nat.lt_trichotomy (myLog2 n) a with hl | hl | hl
  · have := Nat.pow_le_pow_right (show 1 ≤ 2 by norm_num) (show myLog2 n + 1 ≤ a by omega)
    omega
  · exact hl
  · have := Nat.pow_le_pow_right (show 1 ≤ 2 by norm_num) (show a + 1 ≤ myLog2 n by omega)
    omega

theorem myLog2_two_mul {n : ℕ} (h : 1 ≤ n) : myLog2 (2 * n) = myLog2 n + 1 := by
  obtain ⟨l1, l2⟩ := myLog2_spec n h
  apply myLog2_unique
  · rw [pow_succ]; omega
  · rw [pow_succ, pow_succ] at *
    omega

theorem ratLog2Floor_nat {n : ℕ} (h : 1 ≤ n) : ratLog2Floor n 1 = (myLog2 n : ℤ) := by
  show (myLog2 (n * 2 ^ (myLog2 1 + 1) / 1) : ℤ) - ((myLog2 1 + 1 : ℕ) : ℤ) = (myLog2 n : ℤ)
  have h1 : myLog2 1 = 0 := rfl
  have h2 : n * 2 ^ (myLog2 1 + 1) / 1 = 2 * n := by
    rw [h1]; simp [Nat.mul_comm]
  rw [h2, myLog2_two_mul h, h1]
  push_cast
  ring

theorem myLog2_le_52 {n : ℕ} (h1 : 1 ≤ n) (h53 : n < 2 ^ 53) : myLog2 n ≤ 52 := by
  obtain ⟨l1, _⟩ := myLog2_spec n h1
  by_contra hc
  have : (2 : ℕ) ^ 53 ≤ 2 ^ myLog2 n :=
    Nat.pow_le_pow_right (by norm_num) (by omega)
  omega

theorem natToF64_small (n : ℕ) (h1 : 1 ≤ n) (h53 : n < 2 ^ 53) :
    natToF64 n = ⟨((n * 2 ^ (52 - myLog2 n) : ℕ) : ℤ), (myLog2 n : ℤ) - 52⟩ := by
  have he52 := myLog2_le_52 h1 h53
  have hn0 : ((n : ℕ) : ℤ) ≠ 0 := by omega
  have hneg : ¬(((n : ℕ) : ℤ) < 0) := by omega
  have t1 : ((52 : ℤ) - (myLog2 n : ℤ)).toNat = 52 - myLog2 n := by omega
  have t2 : ((myLog2 n : ℤ) - 52).toNat = 0 := by omega
  simp [natToF64, rnd53, hn0, hneg, ratLog2Floor_nat h1, t1, t2, Nat.mod_one, Nat.div_one]

theorem rnd53_exact_small (M : ℕ) (h1 : 2 ^ 52 ≤ M) (h2 : M < 2 ^ 53) :
    rnd53 ((M : ℕ) : ℤ) 1 = ⟨((M : ℕ) : ℤ), 0⟩ := by
  have hM1 : 1 ≤ M := by have : (1 : ℕ) ≤ 2 ^ 52 := Nat.one_le_two_pow; omega
  have hlog : myLog2 M = 52 := myLog2_unique h1 h2
  have := natToF64_small M hM1 h2
  unfold natToF64 at this
  rw [this, hlog]
  norm_num

/-- Multiplying a `u64` value below `2^53` by the binary64 constant
`1.0` and casting back truncates to the same value: the round-trip
through the floating-point buffer computation is the identity there. -/
theorem f64_roundtrip_nat (n : ℕ) (h : n ≤ 2 ^ 53) :
    f64toU64sat (f64mul (natToF64 n) f64One) = n := by
  rcases Nat.eq_zero_or_pos n with rfl | hn
  · rfl
  rcases eq_or_lt_of_le h with h53 | h53
  · subst h53
    decide
  · rw [natToF64_small n hn h53]
    set e := myLog2 n with he
    have he52 := myLog2_le_52 hn h53
    obtain ⟨l1, l2⟩ := myLog2_spec n hn
    set M := n * 2 ^ (52 - e) with hM
    have hM1 : 2 ^ 52 ≤ M := by
      calc (2 : ℕ) ^ 52 = 2 ^ e * 2 ^ (52 - e) := by
            rw [← pow_add]; congr 1; omega
        _ ≤ n * 2 ^ (52 - e) := Nat.mul_le_mul_right _ l1
    have hM2 : M < 2 ^ 53 := by
      calc M < 2 ^ (e + 1) * 2 ^ (52 - e) :=
            (Nat.mul_lt_mul_right (Nat.two_pow_pos _)).mpr l2
        _ = 2 ^ 53 := by rw [← pow_add]; congr 1; omega
    have hMneg : ¬(((M : ℕ) : ℤ) < 0) := by omega
    have hmulz : f64mul ⟨((M : ℕ) : ℤ), (e : ℤ) - 52⟩ f64One =
        ⟨((M : ℕ) : ℤ), (e : ℤ) - 52⟩ := by
      simp only [f64mul, f64One, mul_one]
      rw [rnd53_exact_small M hM1 hM2]
      simp
    rw [hmulz]
    rcases eq_or_lt_of_le he52 with he' | he'
    · have hxe : (e : ℤ) - 52 = 0 := by omega
      have h520 : 52 - e = 0 := by omega
      have hMn : M = n := by rw [hM, h520]; simp
      have hne : ¬(((n : ℕ) : ℤ) < 0) := by omega
      have hn64 : n ≤ 2 ^ 64 - 1 := by omega
      rw [hxe]
      simp [f64toU64sat, hMn, hne]
      omega
    · have hxe : ¬((0 : ℤ) ≤ (e : ℤ) - 52) := by omega
      have ht : (-((e : ℤ) - 52)).toNat = 52 - e := by omega
      have hdiv : M / 2 ^ (52 - e) = n := by
        rw [hM]; exact Nat.mul_div_cancel n (Nat.two_pow_pos _)
      have hn64 : n ≤ 2 ^ 64 - 1 := by omega
      simp [f64toU64sat, hMneg, hxe, ht, hdiv]
      omega

/-- C1 (amended): `percentile` returns 0 on the empty sequence for
every `p`; on the 10-element sequence `[100, .., 1000]` it returns 100
for p = 0, 600 for p = 50 and 900 for p = 90 (the index for p = 90 is
`round(0.9 * 9) = round(8.1) = 8`); and on every non-empty sequence the
result is the element at an index clamped to `[0, n - 1]`. -/
theorem percentile_nearest_rank :
    (∀ p, percentile [] p = 0)
    ∧ percentile [100, 200, 300, 400, 500, 600, 700, 800, 900, 1000] 0 = 100
    ∧ percentile [100, 200, 300, 400, 500, 600, 700, 800, 900, 1000] 50 = 600
    ∧ percentile [100, 200, 300, 400, 500, 600, 700, 800, 900, 1000] 90 = 900
    ∧ (∀ (fees : List ℕ) (p : ℕ), fees ≠ [] →
        ∃ i, ∃ h : i < fees.length,
          percentile fees p = fees.get ⟨i, h⟩ ∧ i ≤ fees.length - 1) := by
  refine ⟨fun p => rfl, by decide, by decide, by decide, ?_⟩
  intro fees p hne
  have hlen : 1 ≤ fees.length := by
    cases fees with
    | nil => exact absurd rfl hne
    | cons a l => simp
  have hemp : fees.isEmpty = false := by
    cases fees with
    | nil => exact absurd rfl hne
    | cons a l => rfl
  refine ⟨min (f64toU64sat (f64roundHalfAway
      (f64mul (f64div (natToF64 p) (natToF64 100)) (natToF64 (fees.length - 1)))))
      (fees.length - 1), ?_, ?_, ?_⟩
  · omega
  · show percentile fees p = fees.get ⟨_, _⟩
    unfold percentile
    rw [hemp]
    simp only [Bool.false_eq_true, if_false]
    rw [List.getD_eq_getElem fees 0 (by omega)]
    rfl
  · exact min_le_right _ _

/-- C1 witness: instantiating the clamped-index clause on a concrete
non-empty list. -/
theorem percentile_nearest_rank_witness :
    ∃ i, ∃ h : i < ([7] : List ℕ).length,
      percentile [7] 123 = ([7] : List ℕ).get ⟨i, h⟩ ∧ i ≤ ([7] : List ℕ).length - 1 :=
  percentile_nearest_rank.2.2.2.2 [7] 123 (by simp)

/-- C1 counterexample: on `[100, .., 1000]` the code returns 900 at
p = 90 — not 1000 as the claim (and the repository's own unit test
`test_percentile_calculation`) states: `0.9 * 9` rounds to 8, and the
element at index 8 is 900. -/
theorem percentile_p90_counterexample :
    percentile [100, 200, 300, 400, 500, 600, 700, 800, 900, 1000] 90 = 900
    ∧ (900 : ℕ) ≠ 1000 :=
  ⟨by decide, by decide⟩

/-- C6: on an empty sample sequence, `estimate` does not fail and
returns the hard-coded default of 10000 microlamports per compute unit,
zero percentiles and zero sampled slots, for every strategy. -/
theorem estimate_empty_fallback :
    DEFAULT_PRIORITY_FEE_MICROLAMPORTS = 10000
    ∧ ∀ strategy, estimateFromSamples [] strategy =
        ⟨10000, strategy, 0, ⟨0, 0, 0, 0, 0⟩⟩ :=
  ⟨rfl, fun _ => rfl⟩

/-- C7 (amended): `estimate_with_buffer` keeps the strategy, the sample
count and all percentile fields of `estimate` unchanged and only
replaces `recommended_fee` by the `f64`-scaled value; with multiplier
1.0 the recommended fee survives the `u64 → f64 → u64` round-trip
unchanged whenever it is at most `2^53` (every value exactly
representable in binary64), which the counterexample shows is a real
restriction. -/
theorem estimateWithBuffer_scales_only_recommended :
    (∀ (fees : List ℕ) (strategy : FeeStrategy) (mult : F64),
        (estimateWithBufferFromSamples fees strategy mult).strategy
            = (estimateFromSamples fees strategy).strategy
        ∧ (estimateWithBufferFromSamples fees strategy mult).slots_sampled
            = (estimateFromSamples fees strategy).slots_sampled
        ∧ (estimateWithBufferFromSamples fees strategy mult).percentiles
            = (estimateFromSamples fees strategy).percentiles
        ∧ (estimateWithBufferFromSamples fees strategy mult).recommended_fee
            = f64toU64sat (f64mul
                (natToF64 (estimateFromSamples fees strategy).recommended_fee) mult))
    ∧ (∀ (fees : List ℕ) (strategy : FeeStrategy),
        (estimateFromSamples fees strategy).recommended_fee ≤ 2 ^ 53 →
        (estimateWithBufferFromSamples fees strategy f64One).recommended_fee
          = (estimateFromSamples fees strategy).recommended_fee) :=
  ⟨fun _ _ _ => ⟨rfl, rfl, rfl, rfl⟩,
   fun _ _ h => f64_roundtrip_nat _ h⟩

/-- C7 witness: on the samples `[5, 10]` with the `Standard` strategy
the recommended fee (10) is below `2^53`, so buffering with 1.0 leaves
it unchanged. -/
theorem estimateWithBuffer_scales_only_recommended_witness :
    (estimateFromSamples [5, 10] .Standard).recommended_fee ≤ 2 ^ 53
    ∧ (estimateWithBufferFromSamples [5, 10] .Standard f64One).recommended_fee
        = (estimateFromSamples [5, 10] .Standard).recommended_fee :=
  ⟨by decide, estimateWithBuffer_scales_only_recommended.2 [5, 10] .Standard (by decide)⟩

/-- C7 counterexample: with the single sample `2^53 + 1`, `estimate`
recommends `2^53 + 1`, but `estimate_with_buffer` with multiplier 1.0
returns `2^53`: the fee is rounded to the nearest even binary64 by the
`u64 as f64` conversion, so the claim that multiplier 1.0 leaves
`recommended_fee` identical fails. -/
theorem estimateWithBuffer_one_counterexample :
    (estimateFromSamples [2 ^ 53 + 1] .Standard).recommended_fee = 2 ^ 53 + 1
    ∧ (estimateWithBufferFromSamples [2 ^ 53 + 1] .Standard f64One).recommended_fee = 2 ^ 53
    ∧ (2 ^ 53 : ℕ) ≠ 2 ^ 53 + 1 :=
  ⟨by decide, by decide, by decide⟩

/-! Helper lemmas for the base-58 round-trip. -/

theorem digitsF_eq (b : ℕ) (hb : 2 ≤ b) : ∀ (fuel n : ℕ), n ≤ fuel →
    digitsF b fuel n = Nat.digits b n := by
  intro fuel
  induction fuel with
  | zero =>
    intro n hn
    have h0 : n = 0 := by omega
    subst h0
    simp [digitsF]
  | succ f ih =>
    intro n hn
    by_cases h0 : n = 0
    · subst h0; simp [digitsF]
    · simp only [digitsF, if_neg h0]
      rw [Nat.digits_def' (by omega : 1 < b) (by omega : 0 < n)]
      congr 1
      exact ih (n / b) (by
        have := Nat.div_lt_self (by omega : 0 < n) (by omega : 1 < b)
        omega)

theorem natDigits_eq (b n : ℕ) (hb : 2 ≤ b) : natDigits b n = Nat.digits b n :=
  digitsF_eq b hb n n le_rfl

theorem decChar_encChar : ∀ d, d < 58 → decChar (encChar d) = some d := by decide

theorem encChar_lt_ne_one : ∀ d, d < 58 → d ≠ 0 → encChar d ≠ '1' := by decide

theorem decodeChars_append (l1 l2 : List Char) (r1 r2 : List ℕ)
    (h1 : decodeChars l1 = some r1) (h2 : decodeChars l2 = some r2) :
    decodeChars (l1 ++ l2) = some (r1 ++ r2) := by
  induction l1 generalizing r1 with
  | nil =>
    simp only [decodeChars] at h1
    cases h1
    simpa using h2
  | cons c cs ih =>
    simp only [decodeChars] at h1 ⊢
    cases hc : decChar c with
    | none => rw [hc] at h1; exact absurd h1 (by simp)
    | some v =>
      rw [hc] at h1
      cases hcs : decodeChars cs with
      | none => rw [hcs] at h1; exact absurd h1 (by simp)
      | some vs =>
        rw [hcs] at h1
        simp only [Option.some.injEq] at h1
        subst h1
        rw [List.cons_append]
        simp [decodeChars, hc, ih vs hcs]

theorem decodeChars_replicate_one (z : ℕ) :
    decodeChars (List.replicate z '1') = some (List.replicate z 0) := by
  induction z with
  | zero => rfl
  | succ n ih =>
    simp [List.replicate_succ, decodeChars, ih, (by decide : decChar '1' = some 0)]

theorem decodeChars_map_encChar (D : List ℕ) (hD : ∀ d ∈ D, d < 58) :
    decodeChars (D.map encChar) = some D := by
  induction D with
  | nil => rfl
  | cons d ds ih =>
    simp only [List.map_cons, decodeChars,
      decChar_encChar d (hD d (List.mem_cons_self d ds)),
      ih (fun x hx => hD x (List.mem_cons_of_mem d hx))]

theorem takeWhile_beq_replicate_append {α : Type} [BEq α] [LawfulBEq α]
    (a : α) (z : ℕ) (l : List α) (hl : ∀ c, l.head? = some c → c ≠ a) :
    (List.replicate z a ++ l).takeWhile (· == a) = List.replicate z a := by
  induction z with
  | zero =>
    simp only [List.replicate, List.nil_append]
    cases l with
    | nil => rfl
    | cons c cs =>
      have hc : (c == a) = false := by
        have := hl c rfl
        simpa using this
      simp [List.takeWhile_cons, hc]
  | succ n ih =>
    simp [List.replicate_succ, List.takeWhile_cons, ih]

theorem ofDigits_replicate_zero (b z : ℕ) :
    Nat.ofDigits b (List.replicate z 0) = 0 := by
  induction z with
  | zero => rfl
  | succ n ih => simp [List.replicate_succ, Nat.ofDigits_cons, ih]

theorem ofDigits_append_replicate_zero (b : ℕ) (L : List ℕ) (z : ℕ) :
    Nat.ofDigits b (L ++ List.replicate z 0) = Nat.ofDigits b L := by
  rw [Nat.ofDigits_append, ofDigits_replicate_zero]
  simp

/-- Base-58 encode/decode round-trip: decoding the encoding of any byte
sequence recovers exactly the original bytes. -/
theorem bs58_roundtrip (bs : List ℕ) (hb : ∀ x ∈ bs, x < 256) :
    bs58decode (bs58encode bs) = some bs := by
  obtain ⟨z, rest, hsplit, hhead, hz⟩ :
      ∃ z rest, bs = List.replicate z 0 ++ rest
        ∧ (∀ c, rest.head? = some c → c ≠ 0)
        ∧ z = (bs.takeWhile (· == 0)).length := by
    refine ⟨(bs.takeWhile (· == 0)).length, bs.dropWhile (· == 0), ?_, ?_, rfl⟩
    · conv_lhs => rw [← List.takeWhile_append_dropWhile (· == 0) bs]
      congr 1
      exact List.eq_replicate_of_mem (fun x hx => by
        simpa using List.mem_takeWhile_imp hx)
    · intro c hc
      have hd := List.head?_dropWhile_not (· == 0) bs
      rw [hc] at hd
      simpa using hd
  have hrest256 : ∀ x ∈ rest.reverse, x < 256 := by
    intro x hx
    refine hb x ?_
    rw [hsplit]
    exact List.mem_append_right _ (List.mem_reverse.mp hx)
  -- the value encoded ignores the leading zero bytes
  have hval : bytesToNat bs = Nat.ofDigits 256 rest.reverse := by
    unfold bytesToNat
    rw [hsplit, List.reverse_append, List.reverse_replicate,
      ofDigits_append_replicate_zero]
  set n := bytesToNat bs with hn
  -- the base-58 digits of the value, big-endian
  set D := (natDigits 58 n).reverse with hD
  have hD58 : ∀ d ∈ D, d < 58 := by
    intro d hd
    rw [hD, natDigits_eq 58 n (by norm_num)] at hd
    exact Nat.digits_lt_base (by norm_num) (List.mem_reverse.mp hd)
  have hDhead : ∀ c, (D.map encChar).head? = some c → c ≠ '1' := by
    intro c hc
    rw [List.head?_map] at hc
    obtain ⟨d0, hd0, hcd⟩ := Option.map_eq_some'.mp hc
    have hd0' : (Nat.digits 58 n).getLast? = some d0 := by
      rw [hD, natDigits_eq 58 n (by norm_num)] at hd0
      rwa [List.head?_reverse] at hd0
    have hn0 : n ≠ 0 := by
      intro h0
      rw [h0] at hd0'
      simp at hd0'
    have hne : Nat.digits 58 n ≠ [] := Nat.digits_ne_nil_iff_ne_zero.mpr hn0
    have hlast58 := Nat.getLast_digit_ne_zero 58 hn0
    have hd0eq : d0 = (Nat.digits 58 n).getLast hne := by
      have hgl := List.getLast?_eq_getLast (Nat.digits 58 n) hne
      exact Option.some.inj (hd0'.symm.trans hgl)
    have hd058 : d0 < 58 :=
      Nat.digits_lt_base (by norm_num) (hd0eq ▸ List.getLast_mem hne)
    rw [← hcd]
    exact encChar_lt_ne_one d0 hd058 (by rw [hd0eq]; exact hlast58)
  have hencode : (bs58encode bs).data = List.replicate z '1' ++ (D.map encChar) := by
    rw [hz, hD, hn]
    rfl
  have hdec : decodeChars ((bs58encode bs).data) = some (List.replicate z 0 ++ D) := by
    rw [hencode]
    exact decodeChars_append _ _ _ _ (decodeChars_replicate_one z)
      (decodeChars_map_encChar D hD58)
  have htw : (((bs58encode bs).data).takeWhile (· == '1')).length = z := by
    rw [hencode, takeWhile_beq_replicate_append '1' z _ hDhead]
    simp
  have hvals : Nat.ofDigits 58 (List.replicate z 0 ++ D).reverse = n := by
    rw [List.reverse_append, List.reverse_replicate, ofDigits_append_replicate_zero,
      hD, List.reverse_reverse, natDigits_eq 58 n (by norm_num)]
    exact Nat.ofDigits_digits 58 n
  have hlast : ∀ (h : rest.reverse ≠ []), rest.reverse.getLast h ≠ 0 := by
    intro h
    have hgl : rest.reverse.getLast? = some (rest.reverse.getLast h) :=
      List.getLast?_eq_getLast _ h
    rw [List.getLast?_reverse] at hgl
    exact hhead _ hgl
  have hback : (natDigits 256 n).reverse = rest := by
    rw [natDigits_eq 256 n (by norm_num), hval,
      Nat.digits_ofDigits 256 (by norm_num) rest.reverse hrest256 hlast,
      List.reverse_reverse]
  simp only [bs58decode, hdec, htw, hvals, hback]
  rw [← hsplit]

/-- C5: building the payload of a bundle of 1 to 5 byte blobs base-58
encodes every blob, and decoding each produced text entry recovers
exactly the original byte sequences in the same order. -/
theorem build_encode_roundtrip (txs : List (List ℕ))
    (h1 : 1 ≤ txs.length) (h5 : txs.length ≤ 5)
    (hbytes : ∀ tx ∈ txs, ∀ b ∈ tx, b < 256) :
    buildPayload txs = .ok (txs.map bs58encode)
    ∧ (txs.map bs58encode).map bs58decode = txs.map some := by
  constructor
  · unfold buildPayload
    rw [if_neg (by cases txs with
      | nil => simp at h1
      | cons a l => simp)]
  · rw [List.map_map]
    exact List.map_congr_left (fun tx htx => bs58_roundtrip tx (hbytes tx htx))

/-- C5 witness: a two-transaction bundle (one blob with leading zero
bytes) encodes and decodes back to the original blobs. -/
theorem build_encode_roundtrip_witness :
    buildPayload [[0, 0, 7, 255], [1, 2, 3]]
      = .ok ([[(0 : ℕ), 0, 7, 255], [1, 2, 3]].map bs58encode)
    ∧ ([[(0 : ℕ), 0, 7, 255], [1, 2, 3]].map bs58encode).map bs58decode
      = [[(0 : ℕ), 0, 7, 255], [1, 2, 3]].map some :=
  build_encode_roundtrip [[0, 0, 7, 255], [1, 2, 3]] (by decide) (by decide) (by decide)

